import Mathlib

/-!
Verification of the pmtools GitHub fan-out / pagination subsystem
(`lib/githubapihelper.js`, `lib/githelper.js`, `lib/child-process.js`).

The JavaScript code is promise-based but single-threaded and deterministic
given the outcomes of the underlying API calls, so it is embedded shallowly:

* Each asynchronous API call is an input to the embedded function, given as a
  `Settlement` (the call's eventual outcome: fulfilled value or rejection
  reason).  Rejection reasons are carried as strings (the error detail is
  passed through the combinators unchanged).
* A top-level operation built with a manually wired `Q.defer()` can also end
  up never settled (e.g. a rejection reaches a `.then` chain that has no
  `fail` handler attached to the deferred); its result type is `Outcome`,
  which adds a `pending` constructor for exactly that case.
* Plain JavaScript objects used as string-keyed dictionaries are embedded as
  insertion-ordered association lists (`JsObj`): property assignment to a
  fresh key appends, assignment to an existing key overwrites the value in
  place, and enumeration (`_.forEach`, `Object.keys`) walks entries in
  insertion order, which is ECMAScript's own enumeration order for the
  non-integer-like string keys these functions use.
-/

/-- Outcome of a settled promise: `Q` promises either fulfill with a value or
reject with a reason. -/
inductive Settlement (α : Type) where
  | fulfilled : α → Settlement α
  | rejected : String → Settlement α
deriving DecidableEq, Repr

namespace Settlement

def isRejected : Settlement α → Bool
  | .rejected _ => true
  | .fulfilled _ => false

def isFulfilled : Settlement α → Bool
  | .rejected _ => false
  | .fulfilled _ => true

end Settlement

/-- Outcome of a top-level deferred promise: in addition to settling it can
stay forever pending when the code loses a rejection (a `.then` chain with no
`fail` handler wired back to the deferred, or a rejection swallowed past the
last handler by `.done()`). -/
inductive Outcome (α : Type) where
  | pending : Outcome α
  | fulfilled : α → Outcome α
  | rejected : String → Outcome α
deriving DecidableEq, Repr

/-- `Q.all`: fulfills with the list of values when every promise fulfills,
rejects as soon as any promise rejects.  The embedding reports the first
rejection in list order; in the source the reason is that of whichever
rejection settles first, but every claim below depends only on *whether* the
join rejects, never on which reason is reported.  (`Q.allSettled` never
rejects — it records each promise's settlement, and in the embedding a list
of settlements already is that record, so it appears inline below.) -/
def qAll {α : Type} : List (Settlement α) → Settlement (List α)
  | [] => .fulfilled []
  | .rejected e :: _ => .rejected e
  | .fulfilled a :: rest =>
    match qAll rest with
    | .fulfilled as => .fulfilled (a :: as)
    | .rejected e => .rejected e

/-- A JavaScript object used as a string-keyed dictionary, in property
insertion order. -/
abbrev JsObj (α : Type) := List (String × α)

/-- `_.has(o, k)` / `k in o` (own property check). -/
def jsHasKey {α : Type} (o : JsObj α) (k : String) : Bool :=
  o.any (fun kv => kv.1 == k)

/-- `o[k]` read. -/
def jsGet {α : Type} (o : JsObj α) (k : String) : Option α :=
  (o.find? (fun kv => kv.1 == k)).map (fun kv => kv.2)

/-- `o[k] = v`: overwrites in place when the key exists (keeping its
position), appends a new entry otherwise. -/
def jsSet {α : Type} (o : JsObj α) (k : String) (v : α) : JsObj α :=
  bif jsHasKey o k then o.map (fun kv => bif kv.1 == k then (k, v) else kv)
  else o ++ [(k, v)]

/-- `Object.keys(o)`, in insertion order. -/
def jsKeys {α : Type} (o : JsObj α) : List String := o.map (fun kv => kv.1)

/-- `_.zipObject(props, values)` (lodash 3): walks the props list, assigning
`result[props[i]] = values[i]` in order.  Property keys are strings: callers
that pass repository *objects* as props get each object coerced to the
property key `String(object) = "[object Object]"`. -/
def zipObject {α : Type} (keys : List String) (values : List α) : JsObj α :=
  (keys.zip values).foldl (fun acc kv => jsSet acc kv.1 kv.2) []

/-- A listing item as returned by the GitHub API, reduced to the fields this
subsystem inspects: whether the item has the identity property `id`
(`_.has(item, 'id')`), and its `name` field (used when the item is a
repository, to address per-repository operations). -/
structure Entry where
  hasId : Bool
  name : String
deriving DecidableEq, Repr

/-- One page of a paginated endpoint: the returned items, plus `some k` iff
the response carries a rel="last" link header (`github.hasLastPage(data)`)
whose `page` query parameter parses to `k`. -/
structure PageData where
  items : List Entry
  lastPage : Option Nat
deriving DecidableEq, Repr

/-- The page numbers `[2, …, k]` requested by the loop
`for (var i = 2; i < parseInt(parsedQuery.query.page) + 1; i += 1)`. -/
def laterPages (k : Nat) : List Nat := List.range' 2 (k - 1)

/-- Shared body of `GithubClient.prototype.allRepos` (githubapihelper.js
lines 107-152), `allIssues` (lines 154-208, after its argument guards) and
`getAllUserEvents` (lines 636-680), which are identical up to the underlying
per-page call: request page 1; keep its items that have an `id`; if the
response names a last page `k`, request pages 2..k concurrently and join
them with `Q.all`, appending each page's `id`-bearing items in page order;
a failure of page 1 or of the `Q.all` join rejects the deferred via the
`.fail` handlers.  `env i` is the settlement of the request for page `i`. -/
def pagedFetch (env : Nat → Settlement PageData) : Settlement (List Entry) :=
  match env 1 with
  | .rejected e => .rejected e
  | .fulfilled data =>
    match data.lastPage with
    | none => .fulfilled (data.items.filter (fun it => it.hasId))
    | some k =>
      match qAll ((laterPages k).map env) with
      | .rejected e => .rejected e
      | .fulfilled pages =>
        .fulfilled (data.items.filter (fun it => it.hasId) ++
          (pages.map (fun p => p.items.filter (fun it => it.hasId))).flatten)

/-- The page requests the fetch issues: page 1 always; pages 2..k only after
page 1 fulfilled and named a last page `k` — the later requests are created
inside the first `.then` callback, which never runs when page 1 rejects. -/
def pagedFetchRequests (env : Nat → Settlement PageData) : List Nat :=
  match env 1 with
  | .rejected _ => [1]
  | .fulfilled data =>
    match data.lastPage with
    | none => [1]
    | some k => 1 :: laterPages k

/-- `GithubClient.prototype.allRepos(org)` (lines 107-152): paginated fetch
of all repositories of the organization; `env i` is the settlement of
`this.repos(org, perPage, i)`. -/
def allRepos (env : Nat → Settlement PageData) : Settlement (List Entry) :=
  pagedFetch env

/-- `GithubClient.prototype.issues(user, repo, …)` (lines 43-74): one page of
issues.  The deferred is rejected synchronously when `user` or `repo` is
falsy (for a string argument that means empty; an omitted argument is
`undefined`, likewise falsy) — that first settlement wins even though the
API call is still issued — and otherwise settles with the API call's
outcome. -/
def issues (user repo : String) (apiResult : Settlement (List Entry)) :
    Settlement (List Entry) :=
  if user = "" then .rejected "No user specified"
  else if repo = "" then .rejected "No repo specified"
  else apiResult

/-- `GithubClient.prototype.allIssues(user, repo, …)` (lines 154-208): the
same argument guards as `issues`, then the shared paginated accumulation. -/
def allIssues (user repo : String) (env : Nat → Settlement PageData) :
    Settlement (List Entry) :=
  if user = "" then .rejected "No user specified"
  else if repo = "" then .rejected "No repo specified"
  else pagedFetch env

/-- `GithubClient.prototype.getAllUserEvents(user)` (lines 636-680). -/
def getAllUserEvents (env : Nat → Settlement PageData) :
    Settlement (List Entry) :=
  pagedFetch env

def c3pages2 : Nat → List Entry :=
  fun i =>
    if i = 2 then [⟨true, "r2"⟩]
    else if i = 3 then [⟨false, "junk3"⟩, ⟨true, "r3"⟩]
    else []

def c3env : Nat → Settlement PageData :=
  fun i =>
    if i = 1 then .fulfilled ⟨[⟨true, "r1"⟩, ⟨false, "junk1"⟩], some 3⟩
    else if i ≤ 3 then .fulfilled ⟨c3pages2 i, none⟩
    else .rejected "no such page"

def c4aEnv : Nat → Settlement PageData :=
  fun _ => .rejected "API rate limit exceeded"

def c4bEnv : Nat → Settlement PageData :=
  fun i =>
    if i = 1 then .fulfilled ⟨[⟨true, "r1"⟩], some 3⟩
    else if i = 2 then .fulfilled ⟨[⟨true, "r2"⟩], none⟩
    else .rejected "socket hang up"

/-- A label as consumed by the merge logic: `name` and `color`. -/
structure Label where
  name : String
  color : String
deriving DecidableEq, Repr

/-- A milestone as consumed by the merge logic: `title` and per-repository
`number`. -/
structure Milestone where
  title : String
  number : Nat
deriving DecidableEq, Repr

/-- The merge loop shared by `listLabels` (githubapihelper.js lines 477-486)
and `listMilestones` (lines 446-452):
`if (_.has(set, key(x))) { set[key(x)].push(x); } else { set[key(x)] = [x]; }`
folded over the items, starting from the accumulator object `seed`. -/
def groupByKey {α : Type} (key : α → String) (items : List α)
    (seed : JsObj (List α)) : JsObj (List α) :=
  items.foldl (fun acc x =>
    bif jsHasKey acc (key x) then
      jsSet acc (key x) ((jsGet acc (key x)).getD [] ++ [x])
    else jsSet acc (key x) [x]) seed

/-- Keys of a list in order of first occurrence (specification-side
helper). -/
def firstSeen (l : List String) : List String :=
  l.foldl (fun acc k => if k ∈ acc then acc else acc ++ [k]) []

/-- `String(repoObject)`: a plain JavaScript object used where a property
key or string is expected coerces to `"[object Object]"`.  The mutating
fan-outs pass the repository objects themselves (not their names) as the
props of `_.zipObject`. -/
def jsObjectToString (_ : Entry) : String := "[object Object]"

/-- The settled-result mapping built by the four mutating fan-outs
(`createLabels` lines 501-516, `deleteLabels` lines 525-540,
`createMilestones` lines 549-567, `deleteMilestones` lines 575-591):
`_.zipObject(repoList, promiseResults)` over the `Q.allSettled` results of
the per-repository operation (`perRepo name` is the settlement of the
operation on the repository of that name, in input order). -/
def fanOutSettled {α : Type} (repoList : List Entry)
    (perRepo : String → Settlement α) : JsObj (Settlement α) :=
  zipObject (repoList.map jsObjectToString)
    (repoList.map (fun r => perRepo r.name))

/-- `GithubClient.prototype.createLabels(org, label)` (lines 501-516):
enumerate the organization's repositories, run `createLabelInRepo(org,
repo.name, label)` on each, join with `Q.allSettled`, and resolve with
`_.zipObject(repoList, promiseResults)`.  When `allRepos` rejects, the
rejection hits a `.then` with no fail handler and the outer deferred never
settles. -/
def createLabels (reposEnv : Nat → Settlement PageData)
    (createEnv : String → Settlement Bool) :
    Outcome (JsObj (Settlement Bool)) :=
  match allRepos reposEnv with
  | .rejected _ => .pending
  | .fulfilled repoList => .fulfilled (fanOutSettled repoList createEnv)

/-- `GithubClient.prototype.deleteLabels(org, label)` (lines 525-540): same
shape as `createLabels` over `deleteLabelInRepo`. -/
def deleteLabels (reposEnv : Nat → Settlement PageData)
    (deleteEnv : String → Settlement Bool) :
    Outcome (JsObj (Settlement Bool)) :=
  match allRepos reposEnv with
  | .rejected _ => .pending
  | .fulfilled repoList => .fulfilled (fanOutSettled repoList deleteEnv)

/-- `GithubClient.prototype.createMilestones(org, milestone)` (lines
549-567): same shape over `createMilestoneInRepo`, whose per-repository
promise resolves with the created milestone object.  (The `_.compact` on the
promise list is a no-op: promise objects are truthy.) -/
def createMilestones (reposEnv : Nat → Settlement PageData)
    (createEnv : String → Settlement Milestone) :
    Outcome (JsObj (Settlement Milestone)) :=
  match allRepos reposEnv with
  | .rejected _ => .pending
  | .fulfilled repoList => .fulfilled (fanOutSettled repoList createEnv)

/-- `GithubClient.prototype.deleteMilestones(org, milestone)` (lines
575-591): same shape over `deleteMilestoneInRepo`.  (`deleteEnv name` is the
settlement of that repository's delete promise, for the runs in which it
settles; the promise hangs when its milestone listing rejects, and then so
does the whole fan-out — outside this input space.) -/
def deleteMilestones (reposEnv : Nat → Settlement PageData)
    (deleteEnv : String → Settlement Bool) :
    Outcome (JsObj (Settlement Bool)) :=
  match allRepos reposEnv with
  | .rejected _ => .pending
  | .fulfilled repoList => .fulfilled (fanOutSettled repoList deleteEnv)

/-- One step of the `_.forEach(combinedResultSet, …)` merge loop of
`listMilestones` (lines 441-454): a rejected per-repository settlement is
logged via `console.error` and skipped; a fulfilled one has its milestones
pushed into the title-keyed index. -/
def msMergeStep (acc : JsObj (List Milestone) × List String)
    (kv : String × Settlement (List Milestone)) :
    JsObj (List Milestone) × List String :=
  match kv.2 with
  | .rejected reason =>
    (acc.1, acc.2 ++ ["error retrieving milestones for " ++ kv.1 ++ " " ++ reason])
  | .fulfilled ms => (groupByKey Milestone.title ms acc.1, acc.2)

/-- `GithubClient.prototype.listMilestones(org)` (lines 428-460): enumerate
repositories, fetch each repository's milestones
(`msEnv name` settles `getMilestonesInRepo(org, name)`), join with
`Q.allSettled`, key the settled results by repository name
(`_.zipObject(_.pluck(repoList, 'name'), promiseResults)`), then merge:
rejected fetches are logged and skipped, fulfilled ones are grouped by
milestone title; the deferred resolves with the merged index.  Returns the
outcome together with the `console.error` lines. -/
def listMilestones (reposEnv : Nat → Settlement PageData)
    (msEnv : String → Settlement (List Milestone)) :
    Outcome (JsObj (List Milestone)) × List String :=
  match allRepos reposEnv with
  | .rejected _ => (.pending, [])
  | .fulfilled repoList =>
    let combinedResultSet :=
      zipObject (repoList.map (fun r => r.name))
        (repoList.map (fun r => msEnv r.name))
    let r := combinedResultSet.foldl msMergeStep ([], [])
    (.fulfilled r.1, r.2)

/-- `GithubClient.prototype.listLabels(org)` (lines 467-492): enumerate
repositories, fetch each repository's labels (`labelsEnv name` settles
`getLabelsInRepo(org, name)`), join with `Q.all`, and group every label by
name.  If any per-repository fetch rejects, the `Q.all` rejection skips the
`.then` that would resolve the deferred and is rethrown by `.done()`, so the
returned promise never settles. -/
def listLabels (reposEnv : Nat → Settlement PageData)
    (labelsEnv : String → Settlement (List Label)) :
    Outcome (JsObj (List Label)) :=
  match allRepos reposEnv with
  | .rejected _ => .pending
  | .fulfilled repoList =>
    match qAll (repoList.map (fun r => labelsEnv r.name)) with
    | .rejected _ => .pending
    | .fulfilled promiseResults =>
      .fulfilled (promiseResults.foldl
        (fun acc labelList => groupByKey Label.name labelList acc) [])

/-- The per-repository milestone lists that arrived fulfilled, in input
order (specification-side helper). -/
def msFulfilledLists (entries : List (String × Settlement (List Milestone))) :
    List (List Milestone) :=
  entries.filterMap (fun kv =>
    match kv.2 with
    | .fulfilled ms => some ms
    | .rejected _ => none)

/-- The `console.error` lines produced for the rejected per-repository
milestone fetches, in input order, each naming its repository
(specification-side helper). -/
def msRejectLogs (entries : List (String × Settlement (List Milestone))) :
    List String :=
  entries.filterMap (fun kv =>
    match kv.2 with
    | .rejected r =>
      some ("error retrieving milestones for " ++ kv.1 ++ " " ++ r)
    | .fulfilled _ => none)

def c1reposEnv : Nat → Settlement PageData :=
  fun i =>
    if i = 1 then .fulfilled ⟨[⟨true, "alpha"⟩, ⟨true, "beta"⟩], none⟩
    else .rejected "no such page"

def c1createEnv : String → Settlement Bool := fun _ => .fulfilled true

def c1msEnv : String → Settlement (List Milestone) :=
  fun name =>
    if name = "alpha" then .fulfilled [⟨"v1", 7⟩] else .fulfilled [⟨"v1", 9⟩]

def c2reposEnv : Nat → Settlement PageData :=
  fun i =>
    if i = 1 then
      .fulfilled ⟨[⟨true, "alpha"⟩, ⟨true, "beta"⟩, ⟨true, "gamma"⟩], none⟩
    else .rejected "no such page"

def c2labelsEnv : String → Settlement (List Label) :=
  fun name =>
    if name = "beta" then .rejected "500 server error"
    else .fulfilled [⟨"bug", "ffffff"⟩]

def c2msEnv : String → Settlement (List Milestone) :=
  fun name =>
    if name = "beta" then .rejected "500 server error"
    else if name = "alpha" then .fulfilled [⟨"v1", 4⟩]
    else .fulfilled [⟨"v2", 5⟩]

/-- The request record sent to `github.issues.createLabel` by
`createLabelInRepo` (githubapihelper.js lines 277-299). -/
structure CreateLabelRequest where
  user : String
  repo : String
  name : String
  color : String
deriving DecidableEq, Repr

/-- `GithubClient.prototype.createLabelInRepo(user, repoName, label, color)`
(lines 277-299): `color = color || 'ffffff'` (a falsy color — empty string,
or the omitted argument `undefined`, embedded as the empty string — defaults
to white), then issue the creation request; the deferred rejects with the
API error or resolves `true`.  Returns the request issued together with the
settlement. -/
def createLabelInRepo (user repoName label color : String)
    (apiResult : Settlement Unit) :
    CreateLabelRequest × Settlement Bool :=
  let color := if color = "" then "ffffff" else color
  (⟨user, repoName, label, color⟩,
    match apiResult with
    | .rejected e => .rejected e
    | .fulfilled _ => .fulfilled true)

/-- `GithubClient.prototype.deleteMilestoneInRepo(user, repo, milestone)`
(lines 393-426), for the runs in which the milestone listing fulfills with
`milestonesData`: every listed milestone whose title equals the requested
one gets a `github.issues.deleteMilestone` call with that milestone's
`number` (`delRes n` is that call's settlement); if none matches
(`nochange`), the deferred is rejected with the descriptive message and no
deletion call is issued.  Returns the settlement of the deferred (with
several same-titled milestones, completion order picks which delete settles
it first; the embedding takes the first match) and the list of milestone
numbers for which deletion calls were issued. -/
def deleteMilestoneInRepo (user repo milestone : String)
    (milestonesData : List Milestone) (delRes : Nat → Settlement Unit) :
    Settlement Bool × List Nat :=
  match milestonesData.filter (fun m => m.title = milestone) with
  | [] =>
    (.rejected ("No milestone named " ++ milestone ++ " found in " ++
      user ++ "/" ++ repo), [])
  | m :: _ =>
    ((match delRes m.number with
      | .rejected e => .rejected e
      | .fulfilled _ => .fulfilled true),
     (milestonesData.filter (fun m => m.title = milestone)).map
       (fun m => m.number))

/-- Result of a finished subprocess (`lib/child-process.js`): captured
stdout and stderr. -/
structure CmdResult where
  stdout : String
  stderr : String
deriving DecidableEq, Repr

/-- `githelper.resetToMaster(cwd, nconf)` (githelper.js lines 64-80): a
falsy `cwd` returns `Q.reject("Invalid cwd: " + cwd)` before any
`Subprocess` is constructed; otherwise runs
`git fetch --all --prune `, `git checkout master`,
`git reset --hard origin/master` in sequence, each failure short-circuiting.
`runEnv cmd` is the settlement of running `cmd` in `cwd`; the second
component lists the commands invoked, in order. -/
def resetToMaster (cwd : String) (runEnv : String → Settlement CmdResult) :
    Settlement CmdResult × List String :=
  if cwd = "" then (.rejected ("Invalid cwd: " ++ cwd), [])
  else
    match runEnv "git fetch --all --prune " with
    | .rejected e => (.rejected e, ["git fetch --all --prune "])
    | .fulfilled _ =>
      match runEnv "git checkout master" with
      | .rejected e =>
        (.rejected e, ["git fetch --all --prune ", "git checkout master"])
      | .fulfilled _ =>
        (runEnv "git reset --hard origin/master",
         ["git fetch --all --prune ", "git checkout master",
          "git reset --hard origin/master"])

/-- `githelper.createBranch(branchname, cwd, nconf)` (lines 91-104): falsy
`branchname` or `cwd` returns `Q.reject("Invalid args: " + branchname, cwd)`
(Q.reject ignores its second argument) before any subprocess; otherwise
checks out and pushes the branch. -/
def createBranch (branchname cwd : String)
    (runEnv : String → Settlement CmdResult) :
    Settlement CmdResult × List String :=
  if branchname = "" ∨ cwd = "" then
    (.rejected ("Invalid args: " ++ branchname), [])
  else
    match runEnv ("git checkout -b " ++ branchname) with
    | .rejected e => (.rejected e, ["git checkout -b " ++ branchname])
    | .fulfilled _ =>
      (runEnv ("git push origin " ++ branchname),
       ["git checkout -b " ++ branchname, "git push origin " ++ branchname])

/-- `githelper.branchStatus(cwd, nconf)` (lines 112-122): falsy `cwd`
rejects; otherwise resolves with the stdout of `git status -s `. -/
def branchStatus (cwd : String) (runEnv : String → Settlement CmdResult) :
    Settlement String × List String :=
  if cwd = "" then (.rejected ("Invalid cwd: " ++ cwd), [])
  else
    match runEnv "git status -s " with
    | .rejected e => (.rejected e, ["git status -s "])
    | .fulfilled r => (.fulfilled r.stdout, ["git status -s "])

/-- `githelper.currentBranch(cwd, nconf)` (lines 130-141): falsy `cwd`
rejects; otherwise resolves with the trimmed stdout of the branch-name
pipeline. -/
def currentBranch (cwd : String) (runEnv : String → Settlement CmdResult) :
    Settlement String × List String :=
  if cwd = "" then (.rejected ("Invalid cwd: " ++ cwd), [])
  else
    match runEnv "git branch --no-color | grep \x27^\\*\x27 | sed -e \x27s/^* //\x27" with
    | .rejected e =>
      (.rejected e, ["git branch --no-color | grep \x27^\\*\x27 | sed -e \x27s/^* //\x27"])
    | .fulfilled r =>
      (.fulfilled r.stdout.trim,
       ["git branch --no-color | grep \x27^\\*\x27 | sed -e \x27s/^* //\x27"])

/-- JS `\w` (ASCII word character: letter, digit, or underscore). -/
def isWordChar (c : Char) : Bool := c.isAlphanum || c = '_'

/-- The character class `[\w_\-\.]` of the reference pattern's
repository-name group. -/
def inRepoClass (c : Char) : Bool := isWordChar c || c = '-' || c = '.'

/-- The character class `[\w_-]` of the reference pattern's branch group
(note: no dot). -/
def inBranchClass (c : Char) : Bool := isWordChar c || c = '-'

/-- First `some` produced by `f` along the list, in order. -/
def firstSome {α β : Type} (f : α → Option β) : List α → Option β
  | [] => none
  | a :: as =>
    match f a with
    | some b => some b
    | none => firstSome f as

/-- Backtracking match of the tail `([\w_\-\.]+)#*([\w_-]*)$` of
`repoRegex` against `cs`, in the JS engine's order: the greedy `+` tries the
longest repository-name group first, then the greedy `#*` the longest hash
run, accepting when the branch group covers exactly the rest.  Returns
(group 2, group 3) of the first accepted split. -/
def tailMatch (cs : List Char) : Option (List Char × List Char) :=
  firstSome (fun g2len =>
      if g2len = 0 ∨ cs.length < g2len then none
      else if (cs.take g2len).all inRepoClass then
        firstSome (fun hlen =>
            if ((cs.drop g2len).take hlen).all (fun c => c = '#') then
              if ((cs.drop g2len).drop hlen).all inBranchClass then
                some (cs.take g2len, (cs.drop g2len).drop hlen)
              else none
            else none)
          ((List.range ((cs.drop g2len).length + 1)).reverse)
      else none)
    ((List.range (cs.length + 1)).reverse)

def gitHttpsPrefix : List Char := "git+https".toList

def rackhdSegment : List Char := "/RackHD/".toList

/-- `repoRegex.exec(value)` for
`/^(git\+https.*\/RackHD\/)([\w_\-\.]+)#*([\w_-]*)$/` (githelper.js line
157): the value must start with `git+https`; the greedy `.*` tries the
longest gap before a `/RackHD/` separator first (`.` does not match a
newline, but the dependency version strings are single-line).  Returns the
three capture groups of the match JS reports. -/
def execRepoRegex (cs : List Char) :
    Option (List Char × List Char × List Char) :=
  if gitHttpsPrefix.isPrefixOf cs then
    firstSome (fun xlen =>
        if rackhdSegment.isPrefixOf ((cs.drop gitHttpsPrefix.length).drop xlen) then
          match tailMatch ((cs.drop gitHttpsPrefix.length).drop
              (xlen + rackhdSegment.length)) with
          | some (g2, g3) =>
            some (gitHttpsPrefix ++ (cs.drop gitHttpsPrefix.length).take xlen ++
              rackhdSegment, g2, g3)
          | none => none
        else none)
      ((List.range ((cs.drop gitHttpsPrefix.length).length + 1)).reverse)
  else none

/-- One dependency entry of the `_.forEach` rewrite loops in
`updatePackageToBranch` (githelper.js lines 163-195): a value matching the
reference pattern with a truthy (non-empty) branch group is left unchanged
and a warning is printed; with an empty branch group it is replaced by
`match[1] + match[2] + "#" + branchname`; a non-matching value is left
untouched silently.  Returns the new value and whether the warning was
printed. -/
def updateDepValue (branchname value : String) : String × Bool :=
  match execRepoRegex value.toList with
  | some (m1, m2, m3) =>
    if m3.isEmpty then
      (String.mk m1 ++ String.mk m2 ++ "#" ++ branchname, false)
    else (value, true)
  | none => (value, false)

/-- The rewrite applied to one dependency mapping (`dependencies` or
`devDependencies`): every value rewritten in place (keys and their order
kept), plus the warned keys in order. -/
def rewriteDeps (branchname : String) (deps : JsObj String) :
    JsObj String × List String :=
  (deps.map (fun kv => (kv.1, (updateDepValue branchname kv.2).1)),
   (deps.filter (fun kv => (updateDepValue branchname kv.2).2)).map
     (fun kv => kv.1))

/-- The parsed package manifest: its `dependencies` and `devDependencies`
mappings. -/
structure PackageData where
  dependencies : JsObj String
  devDependencies : JsObj String
deriving DecidableEq, Repr

/-- `githelper.updatePackageToBranch(branchname, cwd, nconf)` (lines
152-219), restricted to its manifest transformation: falsy arguments return
`Q.reject("Invalid args: " + branchname, cwd)`; otherwise both dependency
mappings are rewritten entry-wise (the surrounding file read/write and git
commit/push are the environment's).  Settles with the rewritten manifest
and the warned keys of both mappings. -/
def updatePackageToBranch (branchname cwd : String) (pkg : PackageData) :
    Settlement (PackageData × List String) :=
  if branchname = "" ∨ cwd = "" then
    .rejected ("Invalid args: " ++ branchname)
  else
    .fulfilled (⟨(rewriteDeps branchname pkg.dependencies).1,
        (rewriteDeps branchname pkg.devDependencies).1⟩,
      (rewriteDeps branchname pkg.dependencies).2 ++
        (rewriteDeps branchname pkg.devDependencies).2)

def c5deps : JsObj String :=
  [("on-http", "git+https://github.com/RackHD/on-http"),
   ("on-core", "git+https://github.com/RackHD/on-core#release-09"),
   ("lodash", "3.10.1")]

theorem jsHasKey_iff_mem {α : Type} (o : JsObj α) (k : String) :
    jsHasKey o k = true ↔ k ∈ jsKeys o := by
  simp only [jsHasKey, jsKeys, List.any_eq_true, List.mem_map, beq_iff_eq]

theorem find?_eq_none_of_hasKey_false {α : Type} (o : JsObj α) (k : String)
    (h : jsHasKey o k = false) : o.find? (fun kv => kv.1 == k) = none := by
  rw [List.find?_eq_none]
  intro kv hm
  simp only [jsHasKey, List.any_eq_false] at h
  exact h kv hm

theorem jsGet_isSome_iff {α : Type} (o : JsObj α) (k : String) :
    (jsGet o k).isSome = jsHasKey o k := by
  induction o with
  | nil => rfl
  | cons kv rest ih =>
    cases hp : (kv.1 == k) with
    | true => simp [jsGet, jsHasKey, List.find?_cons, hp]
    | false =>
      simp only [jsGet, jsHasKey, List.find?_cons, hp, List.any_cons,
        Bool.false_or] at *
      exact ih

/-- The in-place overwrite `o.map (fun kv => bif kv.1 == k then (k, v) else kv)`
is the identity on objects that do not contain the key. -/
theorem map_overwrite_of_hasKey_false {α : Type} (o : JsObj α) (k : String)
    (v : α) (h : jsHasKey o k = false) :
    o.map (fun kv => bif kv.1 == k then (k, v) else kv) = o := by
  conv_rhs => rw [← List.map_id o]
  refine List.map_congr_left ?_
  intro x hx
  have hx1 : ¬x.1 = k := by
    simp only [jsHasKey, List.any_eq_false, beq_iff_eq] at h
    exact h x hx
  have : (x.1 == k) = false := by simpa using hx1
  simp [this]

theorem keys_jsSet {α : Type} (o : JsObj α) (k : String) (v : α) :
    jsKeys (jsSet o k v) =
      if jsHasKey o k then jsKeys o else jsKeys o ++ [k] := by
  unfold jsSet
  cases h : jsHasKey o k with
  | false => simp [jsKeys]
  | true =>
    simp only [cond_true, if_true, jsKeys, List.map_map]
    refine List.map_congr_left ?_
    intro kv _
    cases hkv : (kv.1 == k) with
    | true => simpa [hkv] using (eq_of_beq hkv).symm
    | false => simp [hkv]

theorem jsGet_set_self {α : Type} (o : JsObj α) (k : String) (v : α) :
    jsGet (jsSet o k v) k = some v := by
  unfold jsSet
  cases h : jsHasKey o k with
  | false =>
    simp only [cond_false, jsGet, List.find?_append,
      find?_eq_none_of_hasKey_false o k h]
    simp
  | true =>
    simp only [cond_true, jsGet, List.find?_map]
    have hp : ((fun kv : String × α => kv.1 == k) ∘
        (fun kv => bif kv.1 == k then (k, v) else kv)) = fun kv => kv.1 == k := by
      funext kv
      cases hkv : (kv.1 == k) with
      | true => simp [Function.comp, hkv]
      | false => simp [Function.comp, hkv]
    rw [hp]
    have hsome : (o.find? (fun kv => kv.1 == k)).isSome = true := by
      simp only [List.find?_isSome]
      simpa [jsHasKey, List.any_eq_true] using h
    obtain ⟨kv₀, hkv₀⟩ := Option.isSome_iff_exists.mp hsome
    have hkey : (kv₀.1 == k) = true := by
      have := List.find?_some hkv₀
      simpa using this
    simp [hkv₀, hkey]

theorem jsGet_set_ne {α : Type} (o : JsObj α) (k k' : String) (v : α)
    (h : k' ≠ k) : jsGet (jsSet o k v) k' = jsGet o k' := by
  have hkk : (k == k') = false := by
    simpa using fun hc => h (by simp [hc] : k' = k)
  unfold jsSet
  cases hk : jsHasKey o k with
  | false =>
    simp only [cond_false, jsGet, List.find?_append]
    have : List.find? (fun kv : String × α => kv.1 == k') [(k, v)] = none := by
      simp [List.find?, hkk]
    simp [this]
  | true =>
    simp only [cond_true, jsGet, List.find?_map]
    have hp : ((fun kv : String × α => kv.1 == k') ∘
        (fun kv => bif kv.1 == k then (k, v) else kv)) = fun kv => kv.1 == k' := by
      funext kv
      cases hkv : (kv.1 == k) with
      | true =>
        have : (kv.1 == k') = false := by
          simpa using fun hc => h ((eq_of_beq hkv ▸ hc : k = k')).symm
        simp [Function.comp, hkv, hkk, this]
      | false => simp [Function.comp, hkv]
    rw [hp]
    cases hf : o.find? (fun kv => kv.1 == k') with
    | none => simp
    | some kv₀ =>
      have hkey : (kv₀.1 == k') = true := by
        have := List.find?_some hf
        simpa using this
      have : (kv₀.1 == k) = false := by
        simpa using fun hc => h (eq_of_beq hkey ▸ hc : k' = k)
      simp [this]

theorem jsSet_set_same {α : Type} (o : JsObj α) (k : String) (v v' : α) :
    jsSet (jsSet o k v) k v' = jsSet o k v' := by
  unfold jsSet
  cases h : jsHasKey o k with
  | false =>
    have h2 : jsHasKey (o ++ [(k, v)]) k = true := by
      simp [jsHasKey, List.any_append]
    simp only [cond_false, h2, cond_true, List.map_append,
      map_overwrite_of_hasKey_false o k v' h]
    simp
  | true =>
    have h2 : jsHasKey (o.map (fun kv => bif kv.1 == k then (k, v) else kv)) k = true := by
      have hkeys := keys_jsSet o k v
      simp only [jsSet, h, cond_true, if_true] at hkeys
      rw [jsHasKey_iff_mem, hkeys, ← jsHasKey_iff_mem]
      exact h
    simp only [cond_true, h2, List.map_map]
    refine List.map_congr_left ?_
    intro kv _
    cases hkv : (kv.1 == k) with
    | true => simp [Function.comp, hkv]
    | false => simp [Function.comp, hkv]

theorem qAll_fulfilled {α : Type} (l : List α) :
    qAll (l.map Settlement.fulfilled) = .fulfilled l := by
  induction l with
  | nil => rfl
  | cons a rest ih => simp [qAll, ih]

theorem qAll_eq_fulfilled_iff {α : Type} (l : List (Settlement α)) (vs : List α) :
    qAll l = .fulfilled vs ↔ l = vs.map Settlement.fulfilled := by
  induction l generalizing vs with
  | nil =>
    cases vs <;> simp [qAll]
  | cons s rest ih =>
    cases s with
    | rejected e => cases vs <;> simp [qAll]
    | fulfilled a =>
      cases hq : qAll rest with
      | fulfilled as =>
        cases vs with
        | nil => simp [qAll, hq]
        | cons v vrest =>
          simp only [qAll, hq, List.map_cons]
          constructor
          · rintro h
            injection h with h
            injection h with h1 h2
            subst h1; subst h2
            simp [(ih as).mp hq]
          · rintro h
            injection h with h1 h2
            injection h1 with h1
            subst h1
            have := (ih vrest).mpr h2
            rw [hq] at this
            injection this with this
            subst this
            rfl
      | rejected e =>
        cases vs with
        | nil => simp [qAll, hq]
        | cons v vrest =>
          simp only [qAll, hq, List.map_cons]
          constructor
          · rintro h; cases h
          · rintro h
            injection h with h1 h2
            have := (ih vrest).mpr h2
            rw [hq] at this
            cases this

theorem qAll_rejected_of_mem {α : Type} (l : List (Settlement α)) (e : String)
    (h : Settlement.rejected e ∈ l) : ∃ e', qAll l = .rejected e' := by
  induction l with
  | nil => cases h
  | cons s rest ih =>
    cases s with
    | rejected e' => exact ⟨e', rfl⟩
    | fulfilled a =>
      have hm : Settlement.rejected e ∈ rest := by
        cases h with
        | tail _ h => exact h
      obtain ⟨e', he'⟩ := ih hm
      exact ⟨e', by simp [qAll, he']⟩

/-- C3: for every paginated fetch (all repositories of an org, all issues of
a repo, all user events) whose endpoint reports `k` pages, the resulting
sequence is exactly the concatenation, in page order 1..k, of each page's
items with any item lacking the identity field `id` filtered out.  (`Q.all`
presents pages 2..k in request order — ascending page order — independent of
their completion order, so the embedding has no completion-order parameter.) -/
theorem pagedFetch_concat_in_page_order
    (env : Nat → Settlement PageData) (p1 : List Entry) (k : Nat)
    (pages2 : Nat → List Entry) (lp2 : Nat → Option Nat)
    (user repo : String)
    (h1 : env 1 = .fulfilled ⟨p1, some k⟩)
    (h2 : ∀ i ∈ laterPages k, env i = .fulfilled ⟨pages2 i, lp2 i⟩)
    (hu : user ≠ "") (hr : repo ≠ "") :
    allRepos env =
      .fulfilled (((p1 :: (laterPages k).map pages2).map
        (fun pg => pg.filter (fun it => it.hasId))).flatten)
    ∧ allIssues user repo env = allRepos env
    ∧ getAllUserEvents env = allRepos env := by
  have hq : qAll ((laterPages k).map env) =
      .fulfilled ((laterPages k).map (fun i => PageData.mk (pages2 i) (lp2 i))) := by
    rw [qAll_eq_fulfilled_iff, List.map_map]
    refine List.map_congr_left ?_
    intro i hi
    simpa using h2 i hi
  refine ⟨?_, by simp [allIssues, allRepos, hu, hr, pagedFetch], rfl⟩
  unfold allRepos pagedFetch
  rw [h1]
  simp only [hq, List.map_cons, List.flatten_cons, List.map_map]
  rfl

/-- Witness for C3 at a concrete 3-page endpoint with malformed entries on
pages 1 and 3. -/
theorem pagedFetch_concat_witness :
    allRepos c3env =
      .fulfilled [⟨true, "r1"⟩, ⟨true, "r2"⟩, ⟨true, "r3"⟩] ∧
    allIssues "heckj" "pxe" c3env = allRepos c3env := by
  have h := pagedFetch_concat_in_page_order c3env [⟨true, "r1"⟩, ⟨false, "junk1"⟩] 3
    c3pages2 (fun _ => none) "heckj" "pxe" (by decide) (by decide) (by decide) (by decide)
  exact ⟨by rw [h.1]; rfl, h.2.1⟩

/-- C4: if the request for page 1 fails, the whole fetch rejects with that
error and no request for any further page is issued; if any single request
among pages 2..k fails, the whole fetch rejects (no partial page set is ever
returned).  The last three conjuncts tie the shared accumulator to each of
the three paginated fetches. -/
theorem pagedFetch_failure_rejects
    (env : Nat → Settlement PageData) (e : String) (p1 : List Entry)
    (k i : Nat) (user repo : String) :
    (env 1 = .rejected e →
      pagedFetch env = .rejected e ∧ pagedFetchRequests env = [1])
    ∧ (env 1 = .fulfilled ⟨p1, some k⟩ → i ∈ laterPages k →
        env i = .rejected e → ∃ e', pagedFetch env = .rejected e')
    ∧ allRepos env = pagedFetch env
    ∧ (user ≠ "" → repo ≠ "" → allIssues user repo env = pagedFetch env)
    ∧ getAllUserEvents env = pagedFetch env := by
  refine ⟨?_, ?_, rfl, ?_, rfl⟩
  · intro h
    constructor
    · unfold pagedFetch; rw [h]
    · unfold pagedFetchRequests; rw [h]
  · intro h1 hi hie
    have hmem : Settlement.rejected e ∈ (laterPages k).map env := by
      exact List.mem_map.mpr ⟨i, hi, hie⟩
    obtain ⟨e', he'⟩ := qAll_rejected_of_mem _ e hmem
    refine ⟨e', ?_⟩
    unfold pagedFetch
    rw [h1]
    simp [he']
  · intro hu hr
    simp [allIssues, hu, hr]

/-- Witness for C4: a fetch whose first page fails, and a 3-page fetch whose
third page fails. -/
theorem pagedFetch_failure_witness :
    (pagedFetch c4aEnv = .rejected "API rate limit exceeded" ∧
      pagedFetchRequests c4aEnv = [1]) ∧
    (∃ e', pagedFetch c4bEnv = .rejected e') := by
  refine ⟨(pagedFetch_failure_rejects c4aEnv "API rate limit exceeded" [] 0 0 "u" "r").1
    (by decide), ?_⟩
  exact (pagedFetch_failure_rejects c4bEnv "socket hang up" [⟨true, "r1"⟩] 3 3 "u" "r").2.1
    (by decide) (by decide) (by decide)

theorem firstSeen_concat (l : List String) (k : String) :
    firstSeen (l ++ [k]) =
      if k ∈ firstSeen l then firstSeen l else firstSeen l ++ [k] := by
  simp [firstSeen, List.foldl_append]

theorem mem_firstSeen (l : List String) (k' : String) :
    k' ∈ firstSeen l ↔ k' ∈ l := by
  induction l using List.reverseRecOn with
  | nil => simp [firstSeen]
  | append_singleton l k ih =>
    rw [firstSeen_concat]
    by_cases hk : k ∈ firstSeen l
    · simp only [if_pos hk, List.mem_append, List.mem_singleton, ih]
      constructor
      · exact Or.inl
      · rintro (h | rfl)
        · exact h
        · exact ih.mp hk
    · simp [if_neg hk, ih]

/-- C7: the grouping of aggregated entities by key produces a mapping whose
keys appear in order of first occurrence in the input, and where each key
maps to the subsequence of the items with that key, in their original
relative order (stable append).  Instantiated by the code with
`Label.name` (listLabels) and `Milestone.title` (listMilestones). -/
theorem groupByKey_first_seen_order {α : Type} (key : α → String)
    (items : List α) :
    jsKeys (groupByKey key items []) = firstSeen (items.map key)
    ∧ ∀ k, jsGet (groupByKey key items []) k =
        (if k ∈ items.map key
          then some (items.filter (fun x => key x = k)) else none) := by
  induction items using List.reverseRecOn with
  | nil =>
    refine ⟨rfl, fun k => by simp [groupByKey, jsGet]⟩
  | append_singleton items x ih =>
    obtain ⟨ihk, ihg⟩ := ih
    have hstep : groupByKey key (items ++ [x]) [] =
        (bif jsHasKey (groupByKey key items []) (key x) then
          jsSet (groupByKey key items []) (key x)
            ((jsGet (groupByKey key items []) (key x)).getD [] ++ [x])
        else jsSet (groupByKey key items []) (key x) [x]) := by
      simp [groupByKey, List.foldl_append]
    have hmemIff : jsHasKey (groupByKey key items []) (key x) = true ↔
        key x ∈ items.map key := by
      rw [jsHasKey_iff_mem, ihk, mem_firstSeen]
    cases hx : jsHasKey (groupByKey key items []) (key x) with
    | true =>
      have hmem : key x ∈ items.map key := hmemIff.mp hx
      have hget : jsGet (groupByKey key items []) (key x) =
          some (items.filter (fun y => key y = key x)) := by
        rw [ihg (key x), if_pos hmem]
      rw [hstep, hx, cond_true, hget]
      constructor
      · rw [keys_jsSet, if_pos hx, ihk, List.map_append]
        simp only [List.map_cons, List.map_nil]
        rw [firstSeen_concat, if_pos (by rwa [mem_firstSeen])]
      · intro k
        by_cases hk : k = key x
        · subst hk
          rw [jsGet_set_self, List.map_append, if_pos (by simp [hmem])]
          rw [List.filter_append]
          simp
        · rw [jsGet_set_ne _ _ _ _ hk, ihg k, List.map_append,
            List.filter_append]
          have hxk : ¬key x = k := fun hc => hk hc.symm
          simp [hxk, hk]
    | false =>
      have hmem : ¬key x ∈ items.map key := by
        intro hc
        rw [← hmemIff] at hc
        simp [hx] at hc
      rw [hstep, hx, cond_false]
      constructor
      · rw [keys_jsSet, if_neg (by simp [hx]), ihk, List.map_append]
        simp only [List.map_cons, List.map_nil]
        rw [firstSeen_concat, if_neg (by rwa [mem_firstSeen])]
      · intro k
        by_cases hk : k = key x
        · subst hk
          rw [jsGet_set_self, List.map_append, if_pos (by simp)]
          have hfil : items.filter (fun y => key y = key x) = [] := by
            rw [List.filter_eq_nil_iff]
            intro a ha
            simp only [decide_eq_true_eq]
            intro hc
            exact hmem (List.mem_map.mpr ⟨a, ha, hc⟩)
          rw [List.filter_append, hfil]
          simp
        · rw [jsGet_set_ne _ _ _ _ hk, ihg k, List.map_append,
            List.filter_append]
          have hxk : ¬key x = k := fun hc => hk hc.symm
          simp [hxk, hk]

theorem foldl_jsSet_fresh {α : Type} (pairs : List (String × α)) :
    ∀ (acc : JsObj α), (∀ p ∈ pairs, jsHasKey acc p.1 = false) →
    (pairs.map Prod.fst).Nodup →
    pairs.foldl (fun a kv => jsSet a kv.1 kv.2) acc = acc ++ pairs := by
  induction pairs with
  | nil => intro acc _ _; simp
  | cons kv rest ih =>
    intro acc hfresh hnd
    have hk : jsHasKey acc kv.1 = false := hfresh kv (List.mem_cons_self _ _)
    have hset : jsSet acc kv.1 kv.2 = acc ++ [kv] := by
      simp [jsSet, hk]
    simp only [List.foldl_cons, hset]
    rw [ih (acc ++ [kv]) ?_ ?_]
    · simp
    · intro p hp
      have hpacc : jsHasKey acc p.1 = false := hfresh p (List.mem_cons_of_mem _ hp)
      have hpk : ¬p.1 = kv.1 := by
        simp only [List.map_cons, List.nodup_cons] at hnd
        intro hc
        exact hnd.1 (hc ▸ List.mem_map.mpr ⟨p, hp, rfl⟩)
      simp [jsHasKey, List.any_append, hpacc]
      constructor
      · simpa [jsHasKey, List.any_eq_false] using hpacc
      · simpa using fun hc : kv.1 = p.1 => hpk hc.symm
    · simp only [List.map_cons, List.nodup_cons] at hnd
      exact hnd.2

/-- With pairwise-distinct keys (repository names are unique within one
organization snapshot), `_.zipObject` is the literal key/value pairing. -/
theorem zipObject_nodup {α : Type} (keys : List String) (vals : List α)
    (hnd : keys.Nodup) (hlen : keys.length = vals.length) :
    zipObject keys vals = keys.zip vals := by
  unfold zipObject
  rw [foldl_jsSet_fresh _ [] (by intro p _; rfl) ?_]
  · simp
  · rw [List.map_fst_zip keys vals (by omega)]
    exact hnd

/-- `_.zipObject` with every prop equal to the same string (the coercion of a
repository object) collapses to at most one entry, holding the last value. -/
theorem zipObject_replicate {α : Type} (c : String) (vals : List α) :
    zipObject (List.replicate vals.length c) vals =
      ((vals.getLast?).map (fun v => (c, v))).toList := by
  induction vals using List.reverseRecOn with
  | nil => rfl
  | append_singleton vals v ih =>
    unfold zipObject
    rw [List.length_append, List.length_cons, List.length_nil,
      List.replicate_succ' (vals.length + 0) c]
    simp only [Nat.add_zero]
    rw [List.zip_append (by simp), List.foldl_append]
    have : ((List.replicate vals.length c).zip vals).foldl
        (fun (a : JsObj α) kv => jsSet a kv.1 kv.2) [] =
        zipObject (List.replicate vals.length c) vals := rfl
    rw [this, ih, List.getLast?_concat]
    cases hv : vals.getLast? with
    | none => simp [jsSet, jsHasKey]
    | some v0 => simp [hv, jsSet, jsHasKey]

theorem groupByKey_append {α : Type} (key : α → String) (xs ys : List α)
    (seed : JsObj (List α)) :
    groupByKey key (xs ++ ys) seed = groupByKey key ys (groupByKey key xs seed) := by
  simp [groupByKey, List.foldl_append]

theorem msMerge_foldl (entries : List (String × Settlement (List Milestone))) :
    ∀ (obj : JsObj (List Milestone)) (logs : List String),
    entries.foldl msMergeStep (obj, logs) =
      (groupByKey Milestone.title (msFulfilledLists entries).flatten obj,
       logs ++ msRejectLogs entries) := by
  induction entries with
  | nil => intro obj logs; simp [msFulfilledLists, msRejectLogs, groupByKey]
  | cons kv rest ih =>
    intro obj logs
    cases hs : kv.2 with
    | fulfilled ms =>
      simp only [List.foldl_cons, msMergeStep, hs]
      rw [ih]
      simp only [msFulfilledLists, msRejectLogs, List.filterMap_cons, hs]
      rw [List.flatten_cons, groupByKey_append]
    | rejected r =>
      simp only [List.foldl_cons, msMergeStep, hs]
      rw [ih]
      simp only [msFulfilledLists, msRejectLogs, List.filterMap_cons, hs]
      simp

/-- C1 (amended): when the repository enumeration fulfills, each mutating
fan-out (create/delete label, create/delete milestone) resolves — never
rejects — with the zipObject of the repository objects and their settled
per-repository results; because every repository object coerces to the
property key "[object Object]", that mapping collapses to at most one entry
holding the last repository's settled result, instead of one entry per
repository keyed by name.  The list-milestones fan-out resolves with the
title-grouped milestone index; its internal settled mapping, keyed by
repository name, has (for distinct names) exactly one entry per input
repository, carrying that repository's fulfilled value or rejection reason
unchanged, with as many rejected entries as failing repositories. -/
theorem fanOut_settled_mapping
    (reposEnv : Nat → Settlement PageData) (repoList : List Entry)
    (createEnv deleteEnv dmEnv : String → Settlement Bool)
    (cmEnv : String → Settlement Milestone)
    (msEnv : String → Settlement (List Milestone))
    (h : allRepos reposEnv = .fulfilled repoList) :
    createLabels reposEnv createEnv = .fulfilled (fanOutSettled repoList createEnv)
    ∧ deleteLabels reposEnv deleteEnv = .fulfilled (fanOutSettled repoList deleteEnv)
    ∧ createMilestones reposEnv cmEnv = .fulfilled (fanOutSettled repoList cmEnv)
    ∧ deleteMilestones reposEnv dmEnv = .fulfilled (fanOutSettled repoList dmEnv)
    ∧ fanOutSettled repoList createEnv =
        (((repoList.map (fun r => createEnv r.name)).getLast?).map
          (fun v => ("[object Object]", v))).toList
    ∧ (∃ idx, (listMilestones reposEnv msEnv).1 = .fulfilled idx)
    ∧ ((repoList.map (fun r => r.name)).Nodup →
        zipObject (repoList.map (fun r => r.name))
            (repoList.map (fun r => msEnv r.name)) =
          (repoList.map (fun r => r.name)).zip
            (repoList.map (fun r => msEnv r.name))
        ∧ ((zipObject (repoList.map (fun r => r.name))
              (repoList.map (fun r => msEnv r.name))).filter
            (fun kv => kv.2.isRejected)).length =
          (repoList.filter (fun r => (msEnv r.name).isRejected)).length) := by
  refine ⟨by simp [createLabels, h], by simp [deleteLabels, h],
    by simp [createMilestones, h], by simp [deleteMilestones, h], ?_, ?_, ?_⟩
  · unfold fanOutSettled
    have hkeys : repoList.map jsObjectToString =
        List.replicate (repoList.map (fun r => createEnv r.name)).length
          "[object Object]" := by
      rw [List.length_map, ← List.map_const']
      rfl
    rw [hkeys, zipObject_replicate]
  · unfold listMilestones
    rw [h]
    exact ⟨_, rfl⟩
  · intro hnd
    have hzip := zipObject_nodup (repoList.map (fun r => r.name))
      (repoList.map (fun r => msEnv r.name)) hnd (by simp)
    refine ⟨hzip, ?_⟩
    rw [hzip, List.zip_map']
    rw [← List.countP_eq_length_filter, ← List.countP_eq_length_filter,
      List.countP_map]
    rfl

/-- C1 counterexample: fanning label creation out over the two repositories
named "alpha" and "beta" with both creations succeeding resolves with a
single-entry mapping keyed "[object Object]" — not one fulfilled entry per
repository keyed by its name (there is no "alpha" key at all) — and the
list-milestones fan-out resolves with the title-keyed milestone index, not a
per-repository settled mapping. -/
theorem fanOut_keyed_by_name_counterexample :
    createLabels c1reposEnv c1createEnv =
      .fulfilled [("[object Object]", .fulfilled true)]
    ∧ jsHasKey [(("[object Object]" : String),
        Settlement.fulfilled true)] "alpha" = false
    ∧ (listMilestones c1reposEnv c1msEnv).1 =
        .fulfilled [("v1", [⟨"v1", 7⟩, ⟨"v1", 9⟩])] := by
  refine ⟨by decide, by decide, by decide⟩

/-- Witness for the amended C1 at the two-repository input. -/
theorem fanOut_settled_mapping_witness :
    createLabels c1reposEnv c1createEnv =
      .fulfilled (fanOutSettled [⟨true, "alpha"⟩, ⟨true, "beta"⟩] c1createEnv)
    ∧ fanOutSettled [⟨true, "alpha"⟩, ⟨true, "beta"⟩] c1createEnv =
        [("[object Object]", .fulfilled true)]
    ∧ zipObject ["alpha", "beta"] [c1msEnv "alpha", c1msEnv "beta"] =
        [("alpha", c1msEnv "alpha"), ("beta", c1msEnv "beta")] := by
  have h := fanOut_settled_mapping c1reposEnv [⟨true, "alpha"⟩, ⟨true, "beta"⟩]
    c1createEnv c1createEnv c1createEnv (fun _ => .fulfilled ⟨"v1", 7⟩) c1msEnv
    (by decide)
  refine ⟨h.1, ?_, ?_⟩
  · rw [h.2.2.2.2.1]; decide
  · have := (h.2.2.2.2.2.2 (by decide)).1
    simpa using this

/-- C2 (amended): when the repository enumeration fulfills (with distinct
repository names), the list-milestones fan-out resolves with the merged
title-grouped index built from exactly the fulfilled per-repository fetches,
in input order, and logs one `console.error` line naming each repository
whose fetch rejected; the list-labels fan-out instead joins the
per-repository fetches with an all-or-nothing `Q.all`, so one rejected fetch
leaves the whole listing unresolved — no merged index is produced from the
remaining repositories. -/
theorem listing_partial_failure
    (reposEnv : Nat → Settlement PageData) (repoList : List Entry)
    (msEnv : String → Settlement (List Milestone))
    (labelsEnv : String → Settlement (List Label)) (r : Entry) (e : String)
    (h : allRepos reposEnv = .fulfilled repoList)
    (hnd : (repoList.map (fun x => x.name)).Nodup) :
    ((listMilestones reposEnv msEnv).1 =
        .fulfilled (groupByKey Milestone.title
          (msFulfilledLists
            (repoList.map (fun x => (x.name, msEnv x.name)))).flatten [])
      ∧ (listMilestones reposEnv msEnv).2 =
          msRejectLogs (repoList.map (fun x => (x.name, msEnv x.name))))
    ∧ (r ∈ repoList → labelsEnv r.name = .rejected e →
        listLabels reposEnv labelsEnv = .pending) := by
  constructor
  · have hzip := zipObject_nodup (repoList.map (fun x => x.name))
      (repoList.map (fun x => msEnv x.name)) hnd (by simp)
    rw [List.zip_map'] at hzip
    unfold listMilestones
    rw [h]
    simp only [hzip, msMerge_foldl]
    simp
  · intro hr hre
    have hmem : Settlement.rejected e ∈ repoList.map (fun x => labelsEnv x.name) := by
      exact List.mem_map.mpr ⟨r, hr, hre⟩
    obtain ⟨e', he'⟩ := qAll_rejected_of_mem _ e hmem
    simp [listLabels, h, he']

/-- C2 counterexample: listing labels over three repositories where only
repository "beta" fails does not resolve with the merged entries of "alpha"
and "gamma" — the returned promise never settles. -/
theorem listLabels_aborts_counterexample :
    listLabels c2reposEnv c2labelsEnv = .pending := by decide

/-- Witness for the amended C2 at a three-repository input with "beta"
failing: milestones from "alpha" and "gamma" survive, "beta" is named in the
log, and the labels listing hangs. -/
theorem listing_partial_failure_witness :
    (listMilestones c2reposEnv c2msEnv).1 =
      .fulfilled [("v1", [⟨"v1", 4⟩]), ("v2", [⟨"v2", 5⟩])]
    ∧ (listMilestones c2reposEnv c2msEnv).2 =
        ["error retrieving milestones for beta 500 server error"]
    ∧ listLabels c2reposEnv c2labelsEnv = .pending := by
  have h := listing_partial_failure c2reposEnv
    [⟨true, "alpha"⟩, ⟨true, "beta"⟩, ⟨true, "gamma"⟩] c2msEnv c2labelsEnv
    ⟨true, "beta"⟩ "500 server error" (by decide) (by decide)
  refine ⟨?_, ?_, h.2 (by decide) (by decide)⟩
  · rw [h.1.1]; decide
  · rw [h.1.2]; decide

/-- C10: with a falsy color argument the label-creation request carries
color `ffffff`; a truthy color is used unchanged. -/
theorem createLabelInRepo_default_color
    (user repoName label color : String) (apiResult : Settlement Unit) :
    (createLabelInRepo user repoName label "" apiResult).1.color = "ffffff"
    ∧ (color ≠ "" →
        (createLabelInRepo user repoName label color apiResult).1.color = color) := by
  constructor
  · rfl
  · intro hc
    simp [createLabelInRepo, hc]

/-- Witness for C10 at concrete colors. -/
theorem createLabelInRepo_default_color_witness :
    (createLabelInRepo "heckj" "pxe" "bug" "" (.fulfilled ())).1.color = "ffffff"
    ∧ (createLabelInRepo "heckj" "pxe" "bug" "ff0000" (.fulfilled ())).1.color = "ff0000" := by
  refine ⟨(createLabelInRepo_default_color "heckj" "pxe" "bug" "ff0000" (.fulfilled ())).1, ?_⟩
  exact (createLabelInRepo_default_color "heckj" "pxe" "bug" "ff0000"
    (.fulfilled ())).2 (by decide)

/-- C6: deleting a milestone by a title matching zero milestones rejects
with the descriptive "No milestone named X found in user/repo" message and
issues no deletion call; when milestones with that title exist, the deletion
calls use exactly those milestones' numbers. -/
theorem deleteMilestoneInRepo_not_found
    (user repo milestone : String) (milestonesData : List Milestone)
    (delRes : Nat → Settlement Unit) :
    (milestonesData.filter (fun m => m.title = milestone) = [] →
      deleteMilestoneInRepo user repo milestone milestonesData delRes =
        (.rejected ("No milestone named " ++ milestone ++ " found in " ++
          user ++ "/" ++ repo), []))
    ∧ (∀ m ∈ milestonesData, m.title = milestone →
        m.number ∈ (deleteMilestoneInRepo user repo milestone
          milestonesData delRes).2)
    ∧ (∀ n ∈ (deleteMilestoneInRepo user repo milestone
          milestonesData delRes).2,
        ∃ m ∈ milestonesData, m.title = milestone ∧ m.number = n) := by
  refine ⟨?_, ?_, ?_⟩
  · intro hf
    unfold deleteMilestoneInRepo
    split
    · rfl
    · next m rest hm => rw [hf] at hm; cases hm
  · intro m hm ht
    have hmem : m ∈ milestonesData.filter (fun m => m.title = milestone) := by
      rw [List.mem_filter]
      exact ⟨hm, by simp [ht]⟩
    unfold deleteMilestoneInRepo
    split
    · next hfil => rw [hfil] at hmem; cases hmem
    · next m0 rest hfil =>
      exact List.mem_map.mpr ⟨m, hmem, rfl⟩
  · intro n hn
    unfold deleteMilestoneInRepo at hn
    have hmm : n ∈ (milestonesData.filter (fun m => m.title = milestone)).map
        (fun m => m.number) := by
      cases hfil : milestonesData.filter (fun m => m.title = milestone) with
      | nil => rw [hfil] at hn; cases hn
      | cons m0 rest =>
        rw [hfil] at hn
        simpa [← hfil] using hn
    obtain ⟨m, hmem, hnum⟩ := List.mem_map.mp hmm
    rw [List.mem_filter] at hmem
    exact ⟨m, hmem.1, by simpa using hmem.2, hnum⟩

/-- Witness for C6: a repository whose milestones are `v1` (number 4) and
`v2` (number 9); deleting `v3` rejects without a deletion call, and the
deletion calls for `v2` use number 9. -/
theorem deleteMilestoneInRepo_not_found_witness :
    deleteMilestoneInRepo "heckj" "pxe" "v3" [⟨"v1", 4⟩, ⟨"v2", 9⟩]
        (fun _ => .fulfilled ()) =
      (.rejected "No milestone named v3 found in heckj/pxe", [])
    ∧ 9 ∈ (deleteMilestoneInRepo "heckj" "pxe" "v2" [⟨"v1", 4⟩, ⟨"v2", 9⟩]
        (fun _ => .fulfilled ())).2 := by
  constructor
  · have h := (deleteMilestoneInRepo_not_found "heckj" "pxe" "v3"
      [⟨"v1", 4⟩, ⟨"v2", 9⟩] (fun _ => .fulfilled ())).1 (by decide)
    rw [h]
    decide
  · exact (deleteMilestoneInRepo_not_found "heckj" "pxe" "v2"
      [⟨"v1", 4⟩, ⟨"v2", 9⟩] (fun _ => .fulfilled ())).2.1 ⟨"v2", 9⟩
      (by decide) (by decide)

/-- C8: a falsy (missing/empty) user argument makes both the single-page and
the multi-page issue fetch reject with "No user specified"; a truthy user
with a falsy repo rejects with "No repo specified".  (The guards reject the
deferred synchronously, and in `Q` the first settlement wins, so the later
API outcome cannot override it.) -/
theorem issues_argument_guards (user repo : String)
    (apiResult : Settlement (List Entry)) (env : Nat → Settlement PageData) :
    (issues "" repo apiResult = .rejected "No user specified")
    ∧ (user ≠ "" → issues user "" apiResult = .rejected "No repo specified")
    ∧ (allIssues "" repo env = .rejected "No user specified")
    ∧ (user ≠ "" → allIssues user "" env = .rejected "No repo specified") := by
  refine ⟨rfl, ?_, rfl, ?_⟩
  · intro hu
    simp [issues, hu]
  · intro hu
    simp [allIssues, hu]

/-- Witness for C8 at concrete arguments. -/
theorem issues_argument_guards_witness :
    issues "" "pxe" (.fulfilled []) = .rejected "No user specified"
    ∧ issues "heckj" "" (.fulfilled []) = .rejected "No repo specified"
    ∧ allIssues "" "pxe" c4aEnv = .rejected "No user specified"
    ∧ allIssues "heckj" "" c4aEnv = .rejected "No repo specified" := by
  have h := issues_argument_guards "heckj" "pxe" (.fulfilled []) c4aEnv
  exact ⟨h.1, h.2.1 (by decide), h.2.2.1, h.2.2.2 (by decide)⟩

/-- C9: each local git helper called with a falsy cwd (and `createBranch`
with a falsy branch name or cwd) returns an already-rejected promise
carrying the "Invalid cwd"/"Invalid args" message and invokes no subprocess
command. -/
theorem githelper_invalid_args_no_subprocess
    (branchname cwd : String) (runEnv : String → Settlement CmdResult) :
    resetToMaster "" runEnv = (.rejected "Invalid cwd: ", [])
    ∧ branchStatus "" runEnv = (.rejected "Invalid cwd: ", [])
    ∧ currentBranch "" runEnv = (.rejected "Invalid cwd: ", [])
    ∧ (branchname = "" ∨ cwd = "" →
        createBranch branchname cwd runEnv =
          (.rejected ("Invalid args: " ++ branchname), [])) := by
  refine ⟨rfl, rfl, rfl, ?_⟩
  intro h
  simp [createBranch, h]

/-- Witness for C9 at a concrete environment. -/
theorem githelper_invalid_args_witness :
    resetToMaster "" (fun _ => .fulfilled ⟨"", ""⟩) =
      (.rejected "Invalid cwd: ", [])
    ∧ createBranch "" "/tmp/ws" (fun _ => .fulfilled ⟨"", ""⟩) =
        (.rejected "Invalid args: ", [])
    ∧ createBranch "release-1.0" "" (fun _ => .fulfilled ⟨"", ""⟩) =
        (.rejected "Invalid args: release-1.0", []) := by
  have h1 := githelper_invalid_args_no_subprocess "" "/tmp/ws"
    (fun _ => .fulfilled ⟨"", ""⟩)
  have h2 := githelper_invalid_args_no_subprocess "release-1.0" ""
    (fun _ => .fulfilled ⟨"", ""⟩)
  exact ⟨h1.1, h1.2.2.2 (Or.inl rfl), h2.2.2.2 (Or.inr rfl)⟩

theorem firstSome_eq_some {α β : Type} (f : α → Option β) (l : List α) (b : β)
    (h : firstSome f l = some b) : ∃ a ∈ l, f a = some b := by
  induction l with
  | nil => cases h
  | cons a as ih =>
    unfold firstSome at h
    cases hf : f a with
    | some b' =>
      rw [hf] at h
      injection h with h
      exact ⟨a, List.mem_cons_self _ _, by rw [hf, h]⟩
    | none =>
      rw [hf] at h
      obtain ⟨a', hm, ha'⟩ := ih h
      exact ⟨a', List.mem_cons_of_mem _ hm, ha'⟩

/-- Every tail match decomposes its input as
`group2 ++ hash run ++ group3`. -/
theorem tailMatch_sound (cs g2 g3 : List Char)
    (h : tailMatch cs = some (g2, g3)) :
    ∃ hs : List Char, cs = g2 ++ hs ++ g3 ∧ hs.all (fun c => c = '#') ∧
      g2 ≠ [] ∧ g2.all inRepoClass ∧ g3.all inBranchClass := by
  obtain ⟨g2len, _, hf⟩ := firstSome_eq_some _ _ _ h
  by_cases h0 : g2len = 0 ∨ cs.length < g2len
  · rw [if_pos h0] at hf; cases hf
  rw [if_neg h0] at hf
  push_neg at h0
  obtain ⟨h00, hle⟩ := h0
  by_cases hcls : (cs.take g2len).all inRepoClass = true
  swap
  · rw [if_neg hcls] at hf; cases hf
  rw [if_pos hcls] at hf
  obtain ⟨hlen, _, hf2⟩ := firstSome_eq_some _ _ _ hf
  by_cases hhash : ((cs.drop g2len).take hlen).all (fun c => c = '#') = true
  swap
  · rw [if_neg hhash] at hf2; cases hf2
  rw [if_pos hhash] at hf2
  by_cases hbr : ((cs.drop g2len).drop hlen).all inBranchClass = true
  swap
  · rw [if_neg hbr] at hf2; cases hf2
  rw [if_pos hbr] at hf2
  injection hf2 with hf2
  injection hf2 with hg2 hg3
  refine ⟨(cs.drop g2len).take hlen, ?_, hhash, ?_, hg2 ▸ hcls, hg3 ▸ hbr⟩
  · rw [← hg2, ← hg3, List.append_assoc, List.take_append_drop,
      List.take_append_drop]
  · rw [← hg2]
    intro hnil
    have hlen2 : (cs.take g2len).length = g2len := by
      rw [List.length_take]
      omega
    rw [hnil] at hlen2
    exact h00 (by simpa using hlen2.symm)

/-- Every match of the reference regex decomposes the value as
`group1 ++ group2 ++ hash run ++ group3`, with `group1` of the form
`git+https…/RackHD/`. -/
theorem execRepoRegex_sound (cs m1 m2 m3 : List Char)
    (h : execRepoRegex cs = some (m1, m2, m3)) :
    ∃ hs : List Char, cs = m1 ++ m2 ++ hs ++ m3 ∧
      hs.all (fun c => c = '#') ∧ m2 ≠ [] ∧ m2.all inRepoClass ∧
      m3.all inBranchClass ∧
      ∃ x : List Char, m1 = gitHttpsPrefix ++ x ++ rackhdSegment := by
  unfold execRepoRegex at h
  by_cases hpre : gitHttpsPrefix.isPrefixOf cs = true
  swap
  · rw [if_neg hpre] at h; cases h
  rw [if_pos hpre] at h
  obtain ⟨xlen, hxmem, hf⟩ := firstSome_eq_some _ _ _ h
  by_cases hrk : rackhdSegment.isPrefixOf
      ((cs.drop gitHttpsPrefix.length).drop xlen) = true
  swap
  · rw [if_neg hrk] at hf; cases hf
  rw [if_pos hrk] at hf
  cases ht : tailMatch ((cs.drop gitHttpsPrefix.length).drop
      (xlen + rackhdSegment.length)) with
  | none => rw [ht] at hf; cases hf
  | some g23 =>
    obtain ⟨g2, g3⟩ := g23
    rw [ht] at hf
    injection hf with hf
    injection hf with h1 h23
    injection h23 with h2 h3
    subst h1
    subst h2
    subst h3
    obtain ⟨hs, hdec, hall, hne, hcls2, hcls3⟩ := tailMatch_sound _ _ _ ht
    refine ⟨hs, ?_, hall, hne, hcls2, hcls3,
      (cs.drop gitHttpsPrefix.length).take xlen, rfl⟩
    have hpre' : gitHttpsPrefix <+: cs := by
      simpa using hpre
    have htake : cs.take gitHttpsPrefix.length = gitHttpsPrefix :=
      (List.prefix_iff_eq_take.mp hpre').symm
    have hcs : gitHttpsPrefix ++ cs.drop gitHttpsPrefix.length = cs := by
      conv_rhs => rw [← List.take_append_drop gitHttpsPrefix.length cs]
      rw [htake]
    have hrk' : rackhdSegment <+: (cs.drop gitHttpsPrefix.length).drop xlen := by
      simpa using hrk
    have htk2 : ((cs.drop gitHttpsPrefix.length).drop xlen).take
        rackhdSegment.length = rackhdSegment :=
      (List.prefix_iff_eq_take.mp hrk').symm
    have hdd : ((cs.drop gitHttpsPrefix.length).drop xlen).drop
        rackhdSegment.length =
        (cs.drop gitHttpsPrefix.length).drop (xlen + rackhdSegment.length) :=
      List.drop_drop _ _ _
    have e1 : (cs.drop gitHttpsPrefix.length).drop xlen =
        rackhdSegment ++ (g2 ++ hs ++ g3) := by
      conv_lhs => rw [← List.take_append_drop rackhdSegment.length
        ((cs.drop gitHttpsPrefix.length).drop xlen)]
      rw [htk2, hdd, hdec]
    have e0 : cs.drop gitHttpsPrefix.length =
        (cs.drop gitHttpsPrefix.length).take xlen ++
          (rackhdSegment ++ (g2 ++ hs ++ g3)) := by
      conv_lhs => rw [← List.take_append_drop xlen
        (cs.drop gitHttpsPrefix.length)]
      rw [e1]
    conv_lhs => rw [← hcs]
    rw [e0]
    simp only [List.append_assoc]
    congr 1
    have hxle : xlen ≤ (cs.drop gitHttpsPrefix.length).length := by
      rw [List.mem_reverse, List.mem_range] at hxmem
      omega
    rw [List.take_left' (by rw [List.length_take]; omega)]

theorem jsGet_map_value {α β : Type} (f : α → β) (deps : JsObj α) (k : String) :
    jsGet (deps.map (fun kv => (kv.1, f kv.2))) k = (jsGet deps k).map f := by
  induction deps with
  | nil => rfl
  | cons kv rest ih =>
    cases hp : (kv.1 == k) with
    | true => simp [jsGet, List.find?_cons, hp]
    | false =>
      simp only [jsGet, List.map_cons, List.find?_cons, hp] at *
      exact ih

/-- C5: for every dependency or devDependency entry whose value matches the
source-repository reference pattern: with no existing branch suffix (empty
branch group) the rewrite replaces the value by the same reference
(`match[1] + match[2]`) with `#branchname` appended — in particular a value
containing no `#` at all becomes exactly `value ++ "#" ++ branchname` — and
no warning is emitted; with an existing branch suffix (non-empty branch
group) the value is left byte-for-byte unchanged and the warning is
emitted, so re-running the rewrite never changes an already-pinned entry;
values not matching the pattern are unchanged without warning.  The rewrite
applies entry-wise to both manifest mappings, keys and their order kept. -/
theorem updatePackage_branch_pin
    (branchname cwd : String) (deps : JsObj String) (k v : String)
    (pkg : PackageData) :
    (jsGet deps k = some v →
      jsGet (rewriteDeps branchname deps).1 k =
        some (updateDepValue branchname v).1)
    ∧ (∀ m1 m2, execRepoRegex v.toList = some (m1, m2, []) →
        updateDepValue branchname v =
          (String.mk m1 ++ String.mk m2 ++ "#" ++ branchname, false)
        ∧ ('#' ∉ v.toList → String.mk m1 ++ String.mk m2 = v))
    ∧ (∀ m1 m2 m3, execRepoRegex v.toList = some (m1, m2, m3) → m3 ≠ [] →
        updateDepValue branchname v = (v, true))
    ∧ (execRepoRegex v.toList = none →
        updateDepValue branchname v = (v, false))
    ∧ (branchname ≠ "" → cwd ≠ "" →
        updatePackageToBranch branchname cwd pkg =
          .fulfilled (⟨(rewriteDeps branchname pkg.dependencies).1,
              (rewriteDeps branchname pkg.devDependencies).1⟩,
            (rewriteDeps branchname pkg.dependencies).2 ++
              (rewriteDeps branchname pkg.devDependencies).2)) := by
  refine ⟨?_, ?_, ?_, ?_, ?_⟩
  · intro hget
    simp only [rewriteDeps]
    rw [jsGet_map_value (fun val => (updateDepValue branchname val).1) deps k,
      hget]
    rfl
  · intro m1 m2 hexec
    have hexec' : execRepoRegex v.data = some (m1, m2, []) := hexec
    refine ⟨by simp [updateDepValue, hexec'], ?_⟩
    intro hnh
    obtain ⟨hs, hdec, hall, _, _, _, _⟩ := execRepoRegex_sound _ _ _ _ hexec
    have hhs : hs = [] := by
      cases hs with
      | nil => rfl
      | cons c rest =>
        exfalso
        apply hnh
        rw [hdec]
        have hc : c = '#' := by
          simp only [List.all_cons, Bool.and_eq_true, decide_eq_true_eq] at hall
          exact hall.1
        simp [hc]
    rw [hhs] at hdec
    simp only [List.append_nil] at hdec
    obtain ⟨data⟩ := v
    simp only [String.toList] at hdec
    have happ : String.mk m1 ++ String.mk m2 = String.mk (m1 ++ m2) := rfl
    rw [happ]
    exact congrArg String.mk hdec.symm
  · intro m1 m2 m3 hexec hne
    have hexec' : execRepoRegex v.data = some (m1, m2, m3) := hexec
    simp [updateDepValue, hexec', hne]
  · intro hexec
    have hexec' : execRepoRegex v.data = none := hexec
    simp [updateDepValue, hexec']
  · intro h1 h2
    simp [updatePackageToBranch, h1, h2]

/-- Witness for C5: a manifest whose entries are an unpinned reference, an
already-pinned reference, and a non-reference version; rewriting with branch
`release-1.0` appends the suffix to the first, warns and keeps the second,
and leaves the third alone. -/
theorem updatePackage_branch_pin_witness :
    jsGet (rewriteDeps "release-1.0" c5deps).1 "on-http" =
      some "git+https://github.com/RackHD/on-http#release-1.0"
    ∧ updateDepValue "release-1.0" "git+https://github.com/RackHD/on-http" =
        ("git+https://github.com/RackHD/on-http#release-1.0", false)
    ∧ ("git+https://github.com/RackHD/on-http#release-1.0" : String) =
        "git+https://github.com/RackHD/on-http" ++ "#" ++ "release-1.0"
    ∧ updateDepValue "release-1.0"
        "git+https://github.com/RackHD/on-core#release-09" =
        ("git+https://github.com/RackHD/on-core#release-09", true)
    ∧ updateDepValue "release-1.0" "3.10.1" = ("3.10.1", false)
    ∧ (rewriteDeps "release-1.0" c5deps).2 = ["on-core"] := by
  have h1 := updatePackage_branch_pin "release-1.0" "/tmp/ws" c5deps "on-http"
    "git+https://github.com/RackHD/on-http" ⟨c5deps, []⟩
  have h2 := updatePackage_branch_pin "release-1.0" "/tmp/ws" c5deps "on-core"
    "git+https://github.com/RackHD/on-core#release-09" ⟨c5deps, []⟩
  have h3 := updatePackage_branch_pin "release-1.0" "/tmp/ws" c5deps "lodash"
    "3.10.1" ⟨c5deps, []⟩
  have e1 := (h1.2.1 "git+https://github.com/RackHD/".toList "on-http".toList
    (by decide)).1
  refine ⟨?_, ?_, by decide, ?_, ?_, by decide⟩
  · rw [h1.1 (by decide), e1]
    decide
  · rw [e1]
    decide
  · exact h2.2.2.1 "git+https://github.com/RackHD/".toList "on-core".toList
      "release-09".toList (by decide) (by decide)
  · exact h3.2.2.2.1 (by decide)
